import Mathlib

/-!
Verification of the Black-Scholes option-analytics engine.

The quantitative core of the repository is embedded shallowly:

* `BlackScholes` — `src/lib/utils/blackScholes.ts`: the normal-CDF
  approximation, `calculateD1D2`, `calculateOptionPrice`,
  `calculateGreeks`, `calculateOptionMetrics`,
  `calculatePortfolioMetrics`; plus the stress transform of
  `src/components/StressTest.tsx` and the what-if transform of
  `src/components/WhatIfPanel.tsx`.  JavaScript numbers are modelled as
  real numbers with exact arithmetic (`Math.exp`, `Math.log`,
  `Math.sqrt` become `Real.exp`, `Real.log`, `Real.sqrt`).
* `BSCalc` — the second pricing implementation
  (`calculateBlackScholes` in `src/lib/utils/black-scholes.ts`), which
  delegates its normal CDF to the external jStat library; that CDF is
  taken as an explicit function parameter.
* `PnL` — the P&L-attribution computation of
  `src/components/PnLAttribution.tsx`, over exact rationals (it uses
  only field arithmetic on stored snapshot values).
* `VolSurface` — the bilinear volatility-surface interpolator
  (`interpolateVol`), over exact rationals.
-/

namespace BlackScholes

/-- Option type tag: the source compares the string field
`type` against the literal string Call. -/
inductive OptionType where
  | Call : OptionType
  | Put : OptionType
deriving DecidableEq

/-- The `Option` record of `src/types/option.ts` (renamed `Opt` because
`Option` is taken by Lean's core library); only the fields read by the
pricing engine and the aggregator are carried. -/
structure Opt where
  spotPrice : ℝ
  strikePrice : ℝ
  timeToExpiry : ℝ
  riskFreeRate : ℝ
  volatility : ℝ
  type : OptionType
  quantity : ℝ

/-- The intermediate value `t = 1 / (1 + 0.2316419 * Math.abs(x))` of
`normalCDF` in `blackScholes.ts` (the source's `let` bindings are lifted
to named helpers). -/
noncomputable def cdfT (x : ℝ) : ℝ := 1 / (1 + 0.2316419 * |x|)

/-- The intermediate value `d = 0.3989423 * Math.exp(-x * x / 2)` of
`normalCDF` in `blackScholes.ts`. -/
noncomputable def cdfD (x : ℝ) : ℝ := 0.3989423 * Real.exp (-x * x / 2)

/-- The intermediate value `p` of `normalCDF` in `blackScholes.ts`:
`d * t * (0.3193815 + t * (-0.3565638 + t * (1.781478 + t * (-1.821256 + t * 1.330274))))`. -/
noncomputable def cdfP (x : ℝ) : ℝ :=
  cdfD x * cdfT x *
    (0.3193815 + cdfT x * (-0.3565638 + cdfT x *
      (1.781478 + cdfT x * (-1.821256 + cdfT x * 1.330274))))

/-- `normalCDF` from `blackScholes.ts`: `return x > 0 ? 1 - p : p`. -/
noncomputable def normalCDF (x : ℝ) : ℝ :=
  if x > 0 then 1 - cdfP x else cdfP x

/-- `normalPDF` from `blackScholes.ts`:
`Math.exp(-0.5 * x * x) / Math.sqrt(2 * Math.PI)`. -/
noncomputable def normalPDF (x : ℝ) : ℝ :=
  Real.exp (-0.5 * x * x) / Real.sqrt (2 * Real.pi)

/-- `calculateD1D2` from `blackScholes.ts`. -/
noncomputable def calculateD1D2 (S K T r sigma : ℝ) : ℝ × ℝ :=
  let d1 := (Real.log (S / K) + (r + sigma * sigma / 2) * T) / (sigma * Real.sqrt T)
  (d1, d1 - sigma * Real.sqrt T)

/-- `calculateOptionPrice` from `blackScholes.ts`. -/
noncomputable def calculateOptionPrice (option : Opt) : ℝ :=
  let S := option.spotPrice
  let K := option.strikePrice
  let T := option.timeToExpiry
  let r := option.riskFreeRate
  let sigma := option.volatility
  let d := calculateD1D2 S K T r sigma
  let discountFactor := Real.exp (-r * T)
  match option.type with
  | OptionType.Call => S * normalCDF d.1 - K * discountFactor * normalCDF d.2
  | OptionType.Put => K * discountFactor * normalCDF (-d.2) - S * normalCDF (-d.1)

/-- The Greeks record of `src/types/option.ts`. -/
structure OptionGreeks where
  delta : ℝ
  gamma : ℝ
  theta : ℝ
  vega : ℝ
  rho : ℝ

/-- `calculateGreeks` from `blackScholes.ts`. -/
noncomputable def calculateGreeks (option : Opt) : OptionGreeks :=
  let S := option.spotPrice
  let K := option.strikePrice
  let T := option.timeToExpiry
  let r := option.riskFreeRate
  let sigma := option.volatility
  let d := calculateD1D2 S K T r sigma
  let discountFactor := Real.exp (-r * T)
  let sign : ℝ := match option.type with
    | OptionType.Call => 1
    | OptionType.Put => -1
  { delta := sign * normalCDF (sign * d.1)
    gamma := normalPDF d.1 / (S * sigma * Real.sqrt T)
    theta := -S * sigma * normalPDF d.1 / (2 * Real.sqrt T) -
      sign * r * K * discountFactor * normalCDF (sign * d.2)
    vega := S * Real.sqrt T * normalPDF d.1
    rho := sign * K * T * discountFactor * normalCDF (sign * d.2) }

/-- The OptionMetrics record: the input contract plus derived fields. -/
structure OptionMetrics extends Opt where
  price : ℝ
  greeks : OptionGreeks
  totalValue : ℝ

/-- `calculateOptionMetrics` from `blackScholes.ts`. -/
noncomputable def calculateOptionMetrics (option : Opt) : OptionMetrics :=
  { option with
    price := calculateOptionPrice option
    greeks := calculateGreeks option
    totalValue := calculateOptionPrice option * option.quantity }

/-- The Portfolio record returned by `calculatePortfolioMetrics`. -/
structure Portfolio where
  options : List OptionMetrics
  totalValue : ℝ
  aggregateGreeks : OptionGreeks

/-- One step of the `forEach` accumulation in `calculatePortfolioMetrics`:
each of the five fields of the accumulator receives
`opt.greeks[greek] * opt.quantity`. -/
noncomputable def accumGreeks (g : OptionGreeks) (opt : OptionMetrics) : OptionGreeks :=
  { delta := g.delta + opt.greeks.delta * opt.quantity
    gamma := g.gamma + opt.greeks.gamma * opt.quantity
    theta := g.theta + opt.greeks.theta * opt.quantity
    vega := g.vega + opt.greeks.vega * opt.quantity
    rho := g.rho + opt.greeks.rho * opt.quantity }

/-- `calculatePortfolioMetrics` from `blackScholes.ts`: map
`calculateOptionMetrics` over the contracts, reduce `totalValue` with a
running sum starting at 0, and accumulate the quantity-weighted Greeks
starting from the all-zero record. -/
noncomputable def calculatePortfolioMetrics (options : List Opt) : Portfolio :=
  let optionMetrics := options.map calculateOptionMetrics
  { options := optionMetrics
    totalValue := optionMetrics.foldl (fun sum opt => sum + opt.totalValue) 0
    aggregateGreeks := optionMetrics.foldl accumGreeks ⟨0, 0, 0, 0, 0⟩ }

theorem foldl_add_eq_sum (f : OptionMetrics → ℝ) (l : List OptionMetrics) :
    ∀ init : ℝ, l.foldl (fun sum opt => sum + f opt) init = init + (l.map f).sum := by
  induction l with
  | nil => intro init; simp
  | cons hd tl ih =>
    intro init
    simp only [List.foldl_cons, List.map_cons, List.sum_cons, ih]
    ring

theorem accumGreeks_delta (l : List OptionMetrics) :
    ∀ init : OptionGreeks, (l.foldl accumGreeks init).delta =
      init.delta + (l.map fun opt => opt.greeks.delta * opt.quantity).sum := by
  induction l with
  | nil => intro init; simp
  | cons hd tl ih =>
    intro init
    simp only [List.foldl_cons, List.map_cons, List.sum_cons, ih, accumGreeks]
    ring

theorem accumGreeks_gamma (l : List OptionMetrics) :
    ∀ init : OptionGreeks, (l.foldl accumGreeks init).gamma =
      init.gamma + (l.map fun opt => opt.greeks.gamma * opt.quantity).sum := by
  induction l with
  | nil => intro init; simp
  | cons hd tl ih =>
    intro init
    simp only [List.foldl_cons, List.map_cons, List.sum_cons, ih, accumGreeks]
    ring

theorem accumGreeks_theta (l : List OptionMetrics) :
    ∀ init : OptionGreeks, (l.foldl accumGreeks init).theta =
      init.theta + (l.map fun opt => opt.greeks.theta * opt.quantity).sum := by
  induction l with
  | nil => intro init; simp
  | cons hd tl ih =>
    intro init
    simp only [List.foldl_cons, List.map_cons, List.sum_cons, ih, accumGreeks]
    ring

theorem accumGreeks_vega (l : List OptionMetrics) :
    ∀ init : OptionGreeks, (l.foldl accumGreeks init).vega =
      init.vega + (l.map fun opt => opt.greeks.vega * opt.quantity).sum := by
  induction l with
  | nil => intro init; simp
  | cons hd tl ih =>
    intro init
    simp only [List.foldl_cons, List.map_cons, List.sum_cons, ih, accumGreeks]
    ring

theorem accumGreeks_rho (l : List OptionMetrics) :
    ∀ init : OptionGreeks, (l.foldl accumGreeks init).rho =
      init.rho + (l.map fun opt => opt.greeks.rho * opt.quantity).sum := by
  induction l with
  | nil => intro init; simp
  | cons hd tl ih =>
    intro init
    simp only [List.foldl_cons, List.map_cons, List.sum_cons, ih, accumGreeks]
    ring

/-- C2.  For every list of option contracts (including the empty list),
the Portfolio returned by `calculatePortfolioMetrics` satisfies
`totalValue = Σ priceᵢ · quantityᵢ` and, for each of the five Greeks,
`aggregateGreeks[g] = Σ greeksᵢ[g] · quantityᵢ`, where `priceᵢ` and
`greeksᵢ` are the per-contract outputs of the pricing engine.  In the
exact-arithmetic model of JavaScript numbers the equalities are exact. -/
theorem calculatePortfolioMetrics_sums (opts : List Opt) :
    (calculatePortfolioMetrics opts).totalValue =
      (opts.map fun o => calculateOptionPrice o * o.quantity).sum ∧
    (calculatePortfolioMetrics opts).aggregateGreeks.delta =
      (opts.map fun o => (calculateGreeks o).delta * o.quantity).sum ∧
    (calculatePortfolioMetrics opts).aggregateGreeks.gamma =
      (opts.map fun o => (calculateGreeks o).gamma * o.quantity).sum ∧
    (calculatePortfolioMetrics opts).aggregateGreeks.theta =
      (opts.map fun o => (calculateGreeks o).theta * o.quantity).sum ∧
    (calculatePortfolioMetrics opts).aggregateGreeks.vega =
      (opts.map fun o => (calculateGreeks o).vega * o.quantity).sum ∧
    (calculatePortfolioMetrics opts).aggregateGreeks.rho =
      (opts.map fun o => (calculateGreeks o).rho * o.quantity).sum := by
  simp only [calculatePortfolioMetrics]
  refine ⟨?_, ?_, ?_, ?_, ?_, ?_⟩
  · rw [foldl_add_eq_sum]
    simp [List.map_map, Function.comp_def, calculateOptionMetrics]
  · rw [accumGreeks_delta]
    simp [List.map_map, Function.comp_def, calculateOptionMetrics]
  · rw [accumGreeks_gamma]
    simp [List.map_map, Function.comp_def, calculateOptionMetrics]
  · rw [accumGreeks_theta]
    simp [List.map_map, Function.comp_def, calculateOptionMetrics]
  · rw [accumGreeks_vega]
    simp [List.map_map, Function.comp_def, calculateOptionMetrics]
  · rw [accumGreeks_rho]
    simp [List.map_map, Function.comp_def, calculateOptionMetrics]

/-- The stress parameters of `src/components/StressTest.tsx`. -/
structure StressParams where
  spotPriceChange : ℝ
  volatilityChange : ℝ
  rateChange : ℝ

/-- The per-position stress transform inside `runStressTest`: spread the
position and override spot, volatility and rate. -/
noncomputable def stressOption (p : StressParams) (m : OptionMetrics) : Opt :=
  { m.toOpt with
    spotPrice := m.spotPrice * (1 + p.spotPriceChange / 100)
    volatility := m.volatility * (1 + p.volatilityChange / 100)
    riskFreeRate := m.riskFreeRate + p.rateChange / 100 }

/-- `runStressTest` from `StressTest.tsx`: map the stress transform over
the portfolio's positions and re-aggregate. -/
noncomputable def runStressTest (p : StressParams) (portfolio : Portfolio) : Portfolio :=
  calculatePortfolioMetrics (portfolio.options.map (stressOption p))

theorem stressOption_zero (m : OptionMetrics) :
    stressOption ⟨0, 0, 0⟩ m = m.toOpt := by
  simp [stressOption]

/-- C9.  Applying the stress transform with `spotPriceChange = 0`,
`volatilityChange = 0` and `rateChange = 0` to an aggregated portfolio
and re-aggregating reproduces the original `totalValue` and all five
aggregate Greeks exactly: each transformed field is
`x * (1 + 0/100)` or `x + 0/100`, which is exactly `x`. -/
theorem stress_zero_identity (opts : List Opt) :
    (runStressTest ⟨0, 0, 0⟩ (calculatePortfolioMetrics opts)).totalValue =
      (calculatePortfolioMetrics opts).totalValue ∧
    (runStressTest ⟨0, 0, 0⟩ (calculatePortfolioMetrics opts)).aggregateGreeks =
      (calculatePortfolioMetrics opts).aggregateGreeks := by
  have hmap : (calculatePortfolioMetrics opts).options.map (stressOption ⟨0, 0, 0⟩) = opts := by
    simp only [calculatePortfolioMetrics, List.map_map]
    have : (stressOption ⟨0, 0, 0⟩ ∘ calculateOptionMetrics) = fun o : Opt => o := by
      funext o
      simp [stressOption_zero, calculateOptionMetrics]
    rw [this, List.map_id']
  unfold runStressTest
  rw [hmap]
  exact ⟨rfl, rfl⟩

/-- The tuning parameters of `src/components/WhatIfPanel.tsx`. -/
structure TuningParams where
  volatilityMultiplier : ℝ
  timeDecayDays : ℝ
  rateShift : ℝ

/-- The per-position what-if transform inside `WhatIfPanel`'s effect:
spread the position and override volatility, time to expiry (floored at
0 by `Math.max`) and rate; the adjusted list is then passed straight to
`calculatePortfolioMetrics`. -/
noncomputable def whatIfAdjust (p : TuningParams) (m : OptionMetrics) : Opt :=
  { m.toOpt with
    volatility := m.volatility * p.volatilityMultiplier
    timeToExpiry := max 0 (m.timeToExpiry - p.timeDecayDays / 365)
    riskFreeRate := m.riskFreeRate + p.rateShift / 100 }

/-- C4.  When the time decay drives maturity to (or past) zero the
what-if transform clamps the new maturity to exactly 0, as the claim
states — but no special-casing follows: the adjusted option is handed
straight to `calculatePortfolioMetrics`, so `calculateD1D2` is invoked
with `T = 0` and its denominator `sigma * Math.sqrt(T)` is exactly 0
(division by zero; in JavaScript d1 becomes ±Infinity or NaN).  There is
no intrinsic-value fallback and no degenerate-Greeks branch anywhere in
`WhatIfPanel.tsx` or `blackScholes.ts`.  The second conjunct exhibits
the zero denominator of the general formula that the code then uses. -/
theorem whatIf_zero_maturity_unguarded (p : TuningParams) (m : OptionMetrics)
    (h : m.timeToExpiry ≤ p.timeDecayDays / 365) :
    (whatIfAdjust p m).timeToExpiry = 0 ∧
    (whatIfAdjust p m).volatility * Real.sqrt (whatIfAdjust p m).timeToExpiry = 0 := by
  have hT : (whatIfAdjust p m).timeToExpiry = 0 := by
    simp only [whatIfAdjust]
    exact max_eq_left (by linarith)
  refine ⟨hT, ?_⟩
  rw [hT, Real.sqrt_zero, mul_zero]

/-- Witness for C4: a position with 0.01 years to expiry and a 30-day
time decay satisfies the hypothesis. -/
theorem whatIf_zero_maturity_unguarded_witness :
    (whatIfAdjust ⟨1, 30, 0⟩
        ⟨⟨100, 120, 1 / 100, 1 / 20, 1 / 5, OptionType.Call, 1⟩, 0, ⟨0, 0, 0, 0, 0⟩, 0⟩).timeToExpiry = 0 ∧
    (whatIfAdjust ⟨1, 30, 0⟩
        ⟨⟨100, 120, 1 / 100, 1 / 20, 1 / 5, OptionType.Call, 1⟩, 0, ⟨0, 0, 0, 0, 0⟩, 0⟩).volatility *
      Real.sqrt (whatIfAdjust ⟨1, 30, 0⟩
        ⟨⟨100, 120, 1 / 100, 1 / 20, 1 / 5, OptionType.Call, 1⟩, 0, ⟨0, 0, 0, 0, 0⟩, 0⟩).timeToExpiry = 0 :=
  whatIf_zero_maturity_unguarded ⟨1, 30, 0⟩
    ⟨⟨100, 120, 1 / 100, 1 / 20, 1 / 5, OptionType.Call, 1⟩, 0, ⟨0, 0, 0, 0, 0⟩, 0⟩
    (by norm_num)

theorem cdfP_neg (x : ℝ) : cdfP (-x) = cdfP x := by
  unfold cdfP cdfD cdfT
  rw [abs_neg, show (- -x * -x : ℝ) = -x * x by ring]

/-- The Abramowitz-Stegun branch structure of `normalCDF` makes
`N(x) + N(-x) = 1` hold exactly for every nonzero argument: the same
polynomial value `p` appears in both branches. -/
theorem normalCDF_add_neg (x : ℝ) (hx : x ≠ 0) :
    normalCDF x + normalCDF (-x) = 1 := by
  rcases hx.lt_or_lt with h | h
  · rw [normalCDF, normalCDF, if_neg (by linarith), if_pos (by linarith), cdfP_neg]
    ring
  · rw [normalCDF, normalCDF, if_pos h, if_neg (by linarith), cdfP_neg]
    ring

theorem normalCDF_zero_val : normalCDF 0 = 0.49999985009951 := by
  rw [normalCDF, if_neg (lt_irrefl 0)]
  unfold cdfP cdfD cdfT
  norm_num

/-- C5 (amended).  Put-call parity for `calculateOptionPrice` holds
EXACTLY — error 0, well inside any tolerance — whenever neither `d1`
nor `d2` is exactly 0, because `normalCDF x + normalCDF (-x) = 1`
exactly for `x` not 0.  (When `d1 = 0` or `d2 = 0` the parity error is
`S * (1 - 2 * normalCDF 0)` resp. `K * exp(-r T) * (2 * normalCDF 0 - 1)`,
about `3.0e-7` per unit of S; see the counterexample theorem.) -/
theorem putCallParity_exact (S K T r sigma : ℝ)
    (hS : 0 < S) (hK : 0 < K) (hT : 0 < T) (hsigma : 0 < sigma)
    (hd1 : (calculateD1D2 S K T r sigma).1 ≠ 0)
    (hd2 : (calculateD1D2 S K T r sigma).2 ≠ 0) :
    calculateOptionPrice ⟨S, K, T, r, sigma, OptionType.Call, 1⟩ -
      calculateOptionPrice ⟨S, K, T, r, sigma, OptionType.Put, 1⟩ =
      S - K * Real.exp (-r * T) := by
  simp only [calculateOptionPrice]
  linear_combination S * normalCDF_add_neg _ hd1 -
    (K * Real.exp (-r * T)) * normalCDF_add_neg _ hd2

/-- Witness for C5's amended theorem at S=100, K=100, T=1, r=0,
sigma=1/5, where d1 = 1/10 and d2 = -1/10. -/
theorem putCallParity_exact_witness :
    calculateOptionPrice ⟨100, 100, 1, 0, 1 / 5, OptionType.Call, 1⟩ -
      calculateOptionPrice ⟨100, 100, 1, 0, 1 / 5, OptionType.Put, 1⟩ =
      100 - 100 * Real.exp (-0 * 1) :=
  putCallParity_exact 100 100 1 0 (1 / 5) (by norm_num) (by norm_num) (by norm_num)
    (by norm_num)
    (by
      simp only [calculateD1D2]
      rw [show ((100 : ℝ) / 100) = 1 by norm_num, Real.log_one, Real.sqrt_one]
      norm_num)
    (by
      simp only [calculateD1D2]
      rw [show ((100 : ℝ) / 100) = 1 by norm_num, Real.log_one, Real.sqrt_one]
      norm_num)

/-- C5 (counterexample).  The claim as stated — parity within 1e-6
absolute for EVERY valid input — fails: at S = K = 100, T = 1,
sigma = 1/5, r = -1/50 the numerator of d1 vanishes, so d1 = 0 and the
parity error is `200 * normalCDF 0 - 100 = -2.9980098e-5`, which
exceeds the 1e-6 tolerance by a factor of about 30. -/
theorem putCallParity_tolerance_violation :
    ¬ (|calculateOptionPrice ⟨100, 100, 1, -(1 / 50), 1 / 5, OptionType.Call, 1⟩ -
        calculateOptionPrice ⟨100, 100, 1, -(1 / 50), 1 / 5, OptionType.Put, 1⟩ -
        (100 - 100 * Real.exp (-(-(1 / 50)) * 1))| ≤ 1e-6) := by
  have hd : calculateD1D2 100 100 1 (-(1 / 50)) (1 / 5) = (0, -(1 / 5)) := by
    simp only [calculateD1D2]
    rw [show ((100 : ℝ) / 100) = 1 by norm_num, Real.log_one, Real.sqrt_one]
    norm_num
  have hsym : normalCDF (1 / 5) + normalCDF (-(1 / 5)) = 1 :=
    normalCDF_add_neg (1 / 5) (by norm_num)
  have key : calculateOptionPrice ⟨100, 100, 1, -(1 / 50), 1 / 5, OptionType.Call, 1⟩ -
      calculateOptionPrice ⟨100, 100, 1, -(1 / 50), 1 / 5, OptionType.Put, 1⟩ -
      (100 - 100 * Real.exp (-(-(1 / 50)) * 1)) = -(29980098 / 10 ^ 12) := by
    simp only [calculateOptionPrice, hd, neg_neg, neg_zero, mul_one]
    linear_combination (200 : ℝ) * normalCDF_zero_val -
      (100 * Real.exp (1 / 50)) * hsym
  rw [key, abs_neg, abs_of_pos (by norm_num)]
  norm_num

theorem cdfT_pos (x : ℝ) : 0 < cdfT x := by
  unfold cdfT
  have : (0 : ℝ) < 1 + 0.2316419 * |x| := by positivity
  positivity

theorem cdfT_le_one (x : ℝ) : cdfT x ≤ 1 := by
  unfold cdfT
  rw [div_le_one (by positivity)]
  nlinarith [abs_nonneg x]

/-- The Horner polynomial of the CDF approximation is positive for every
real argument (it decomposes as a sum of two squares plus 0.291935…). -/
theorem cdfPoly_pos (t : ℝ) :
    0 < 0.3193815 + t * (-0.3565638 + t *
      (1.781478 + t * (-1.821256 + t * 1.330274))) := by
  nlinarith [sq_nonneg (t * t - 0.684537 * t), sq_nonneg (t - 0.153946), sq_nonneg t]

/-- On `[0,1]` (the range of `t = 1/(1+0.2316419|x|)`), the factor
`t * polynomial(t)` stays below 1.7442957. -/
theorem cdfPoly_mul_le (t : ℝ) (h0 : 0 ≤ t) (h1 : t ≤ 1) :
    t * (0.3193815 + t * (-0.3565638 + t *
      (1.781478 + t * (-1.821256 + t * 1.330274)))) ≤ 1.7442957 := by
  have hq0 : (0 : ℝ) ≤ 1.781478 + t * (-1.821256 + t * 1.330274) := by
    nlinarith [sq_nonneg (1.330274 * t - 0.910628)]
  have hqle : t * (1.781478 + t * (-1.821256 + t * 1.330274)) ≤ 1.781478 := by
    nlinarith [mul_nonneg (sub_nonneg.mpr h1) hq0]
  rcases le_or_lt 0 (-0.3565638 + t * (1.781478 + t * (-1.821256 + t * 1.330274))) with hc | hc
  · nlinarith [mul_nonneg (sub_nonneg.mpr h1) hc, mul_nonneg h0 hc]
  · nlinarith [mul_nonneg h0 h0, mul_nonpos_of_nonneg_of_nonpos h0 hc.le]

theorem cdfD_pos (x : ℝ) : 0 < cdfD x := by
  unfold cdfD
  positivity

theorem cdfD_le (x : ℝ) : cdfD x ≤ 0.3989423 := by
  unfold cdfD
  have : Real.exp (-x * x / 2) ≤ 1 := by
    rw [show (1 : ℝ) = Real.exp 0 from (Real.exp_zero).symm]
    exact Real.exp_le_exp.mpr (by nlinarith [sq_nonneg x])
  nlinarith

theorem cdfP_nonneg (x : ℝ) : 0 ≤ cdfP x := by
  unfold cdfP
  exact le_of_lt (mul_pos (mul_pos (cdfD_pos x) (cdfT_pos x)) (cdfPoly_pos (cdfT x)))

theorem cdfP_le_one (x : ℝ) : cdfP x ≤ 1 := by
  unfold cdfP
  have h1 : cdfD x * cdfT x *
      (0.3193815 + cdfT x * (-0.3565638 + cdfT x *
        (1.781478 + cdfT x * (-1.821256 + cdfT x * 1.330274)))) =
      cdfD x * (cdfT x * (0.3193815 + cdfT x * (-0.3565638 + cdfT x *
        (1.781478 + cdfT x * (-1.821256 + cdfT x * 1.330274))))) := by ring
  rw [h1]
  have hmul : cdfT x * (0.3193815 + cdfT x * (-0.3565638 + cdfT x *
      (1.781478 + cdfT x * (-1.821256 + cdfT x * 1.330274)))) ≤ 1.7442957 :=
    cdfPoly_mul_le (cdfT x) (cdfT_pos x).le (cdfT_le_one x)
  have hmul0 : 0 ≤ cdfT x * (0.3193815 + cdfT x * (-0.3565638 + cdfT x *
      (1.781478 + cdfT x * (-1.821256 + cdfT x * 1.330274)))) :=
    mul_nonneg (cdfT_pos x).le (cdfPoly_pos (cdfT x)).le
  nlinarith [cdfD_le x, cdfD_pos x]

theorem normalCDF_nonneg (x : ℝ) : 0 ≤ normalCDF x := by
  unfold normalCDF
  split
  · nlinarith [cdfP_le_one x]
  · exact cdfP_nonneg x

theorem normalCDF_le_one (x : ℝ) : normalCDF x ≤ 1 := by
  unfold normalCDF
  split
  · nlinarith [cdfP_nonneg x]
  · exact cdfP_le_one x

theorem normalPDF_nonneg (x : ℝ) : 0 ≤ normalPDF x := by
  unfold normalPDF
  positivity

/-- C8.  For every option with positive spot, strike, maturity and
volatility (and any rate), `calculateGreeks` returns `gamma ≥ 0` and
`vega ≥ 0`; `delta` lies in `[0,1]` for a Call and in `[-1,0]` for a
Put.  The delta bounds hold because the CDF approximation itself always
stays inside `[0,1]`. -/
theorem calculateGreeks_bounds (o : Opt)
    (hS : 0 < o.spotPrice) (hK : 0 < o.strikePrice)
    (hT : 0 < o.timeToExpiry) (hsigma : 0 < o.volatility) :
    0 ≤ (calculateGreeks o).gamma ∧ 0 ≤ (calculateGreeks o).vega ∧
    (o.type = OptionType.Call →
      0 ≤ (calculateGreeks o).delta ∧ (calculateGreeks o).delta ≤ 1) ∧
    (o.type = OptionType.Put →
      -1 ≤ (calculateGreeks o).delta ∧ (calculateGreeks o).delta ≤ 0) := by
  obtain ⟨S, K, T, r, sigma, ty, q⟩ := o
  simp only at hS hK hT hsigma
  cases ty with
  | Call =>
    simp only [calculateGreeks]
    refine ⟨?_, ?_, ?_, ?_⟩
    · exact div_nonneg (normalPDF_nonneg _) (by positivity)
    · exact mul_nonneg (mul_nonneg hS.le (Real.sqrt_nonneg T)) (normalPDF_nonneg _)
    · intro _
      constructor
      · simpa using normalCDF_nonneg ((calculateD1D2 S K T r sigma).1)
      · simpa using normalCDF_le_one ((calculateD1D2 S K T r sigma).1)
    · intro hcontra
      exact absurd hcontra (by simp)
  | Put =>
    simp only [calculateGreeks]
    refine ⟨?_, ?_, ?_, ?_⟩
    · exact div_nonneg (normalPDF_nonneg _) (by positivity)
    · exact mul_nonneg (mul_nonneg hS.le (Real.sqrt_nonneg T)) (normalPDF_nonneg _)
    · intro hcontra
      exact absurd hcontra (by simp)
    · intro _
      have h1 := normalCDF_le_one (-1 * ((calculateD1D2 S K T r sigma).1))
      have h2 := normalCDF_nonneg (-1 * ((calculateD1D2 S K T r sigma).1))
      constructor
      · linarith
      · linarith

/-- Witness for C8 at S=100, K=100, T=1, r=1/20, sigma=1/5 (a Call). -/
theorem calculateGreeks_bounds_witness :
    0 ≤ (calculateGreeks ⟨100, 100, 1, 1 / 20, 1 / 5, OptionType.Call, 1⟩).gamma ∧
    0 ≤ (calculateGreeks ⟨100, 100, 1, 1 / 20, 1 / 5, OptionType.Call, 1⟩).vega ∧
    ((⟨100, 100, 1, 1 / 20, 1 / 5, OptionType.Call, 1⟩ : Opt).type = OptionType.Call →
      0 ≤ (calculateGreeks ⟨100, 100, 1, 1 / 20, 1 / 5, OptionType.Call, 1⟩).delta ∧
      (calculateGreeks ⟨100, 100, 1, 1 / 20, 1 / 5, OptionType.Call, 1⟩).delta ≤ 1) ∧
    ((⟨100, 100, 1, 1 / 20, 1 / 5, OptionType.Call, 1⟩ : Opt).type = OptionType.Put →
      -1 ≤ (calculateGreeks ⟨100, 100, 1, 1 / 20, 1 / 5, OptionType.Call, 1⟩).delta ∧
      (calculateGreeks ⟨100, 100, 1, 1 / 20, 1 / 5, OptionType.Call, 1⟩).delta ≤ 0) :=
  calculateGreeks_bounds ⟨100, 100, 1, 1 / 20, 1 / 5, OptionType.Call, 1⟩
    (by norm_num) (by norm_num) (by norm_num) (by norm_num)

end BlackScholes

namespace BSCalc

/-- The input record of `src/lib/utils/black-scholes.ts`. -/
structure BlackScholesInputs where
  stockPrice : ℝ
  strikePrice : ℝ
  timeToMaturity : ℝ
  volatility : ℝ
  riskFreeRate : ℝ
  isCall : Bool

/-- The output record of `calculateBlackScholes`. -/
structure BlackScholesOutputs where
  optionPrice : ℝ
  d1 : ℝ
  d2 : ℝ
  delta : ℝ
  gamma : ℝ
  theta : ℝ
  vega : ℝ
  rho : ℝ

/-- `calculateBlackScholes` from `black-scholes.ts`.  The source obtains
its standard-normal CDF and PDF from the external jStat library
(`jStat.normal.cdf(·, 0, 1)` and `jStat.normal.pdf(·, 0, 1)`); these are
taken here as explicit function parameters `normcdf` and `normpdf`.
jStat's normal CDF is the exact erf-based Gaussian CDF, which satisfies
the reflection identity `normcdf (-x) = 1 - normcdf x`. -/
noncomputable def calculateBlackScholes (normcdf normpdf : ℝ → ℝ)
    (inputs : BlackScholesInputs) : BlackScholesOutputs :=
  let S := inputs.stockPrice
  let K := inputs.strikePrice
  let T := inputs.timeToMaturity
  let v := inputs.volatility
  let r := inputs.riskFreeRate
  let d1 := (Real.log (S / K) + (r + v * v / 2) * T) / (v * Real.sqrt T)
  let d2 := d1 - v * Real.sqrt T
  let Nd1 := normcdf (if inputs.isCall then d1 else -d1)
  let Nd2 := normcdf (if inputs.isCall then d2 else -d2)
  let Npd1 := normpdf d1
  let optionPrice := if inputs.isCall then S * Nd1 - K * Real.exp (-r * T) * Nd2
    else K * Real.exp (-r * T) * (1 - Nd2) - S * (1 - Nd1)
  { optionPrice := optionPrice
    d1 := d1
    d2 := d2
    delta := if inputs.isCall then Nd1 else Nd1 - 1
    gamma := Npd1 / (S * v * Real.sqrt T)
    theta := -(S * v * Npd1) / (2 * Real.sqrt T) -
      (if inputs.isCall then 1 else -1) * r * K * Real.exp (-r * T) * Nd2
    vega := S * Real.sqrt T * Npd1
    rho := (if inputs.isCall then 1 else -1) * K * T * Real.exp (-r * T) * Nd2 }

/-- C1 (supporting theorem for the code bug).  For any CDF satisfying
the exact reflection identity — jStat's erf-based normal CDF does — the
put branch of `calculateBlackScholes` returns the NEGATION of the call
price: with `isCall = false` the code evaluates
`K·e^(-rT)·(1 - N(-d2)) - S·(1 - N(-d1)) = K·e^(-rT)·N(d2) - S·N(d1)`,
not the claimed `K·e^(-rT)·N(-d2) - S·N(-d1)`.  The CDF arguments were
already negated for the put, so applying the `1 - ·` complement again
double-negates them.  (The sibling implementation `calculateOptionPrice`
in `blackScholes.ts` does implement the claimed put formula verbatim.) -/
theorem calculateBlackScholes_put_negates_call (normcdf normpdf : ℝ → ℝ)
    (hsym : ∀ x, normcdf (-x) = 1 - normcdf x) (S K T v r : ℝ) :
    (calculateBlackScholes normcdf normpdf ⟨S, K, T, v, r, false⟩).optionPrice =
      -((calculateBlackScholes normcdf normpdf ⟨S, K, T, v, r, true⟩).optionPrice) := by
  simp only [calculateBlackScholes, Bool.false_eq_true, if_false, if_true, ite_false, ite_true]
  rw [hsym, hsym]
  ring

/-- Witness for C1's theorem: a concrete CDF with the reflection
identity at concrete inputs. -/
theorem calculateBlackScholes_put_negates_call_witness :
    (calculateBlackScholes (fun x => 1 / 2 + x / 4) (fun _ => 0)
        ⟨100, 100, 1, 1 / 5, 1 / 20, false⟩).optionPrice =
      -((calculateBlackScholes (fun x => 1 / 2 + x / 4) (fun _ => 0)
        ⟨100, 100, 1, 1 / 5, 1 / 20, true⟩).optionPrice) :=
  calculateBlackScholes_put_negates_call (fun x => 1 / 2 + x / 4) (fun _ => 0)
    (fun x => by push_cast; ring) 100 100 1 (1 / 5) (1 / 20)

end BSCalc

namespace PnL

/-- The five Greeks of a stored position snapshot
(`src/components/PnLAttribution.tsx` reads them from the previous
portfolio's positions).  JavaScript numbers are modelled as exact
rationals: the attribution uses only field arithmetic. -/
structure OptionGreeks where
  delta : ℚ
  gamma : ℚ
  theta : ℚ
  vega : ℚ
  rho : ℚ
deriving DecidableEq

/-- The fields of an `OptionMetrics` element of `portfolio.options`
that the P&L attribution reads. -/
structure OptionMetrics where
  spotPrice : ℚ
  volatility : ℚ
  riskFreeRate : ℚ
  quantity : ℚ
  greeks : OptionGreeks
deriving DecidableEq

/-- The fields of a `Portfolio` that the P&L attribution reads. -/
structure Portfolio where
  options : List OptionMetrics
  totalValue : ℚ
deriving DecidableEq

/-- The `PnLComponents` record of `PnLAttribution.tsx`. -/
structure PnLComponents where
  delta : ℚ
  gamma : ℚ
  theta : ℚ
  vega : ℚ
  rho : ℚ
  unexplained : ℚ
  total : ℚ
deriving DecidableEq

/-- The body of one `forEach` iteration in `PnLAttribution.tsx` once a
previous position was found: sensitivities come from `prevOption.greeks`
and every term is weighted by `currentOption.quantity`. -/
def pnlAccum (timeElapsed : ℚ) (acc : PnLComponents)
    (currentOption prevOption : OptionMetrics) : PnLComponents :=
  let spotChange := currentOption.spotPrice - prevOption.spotPrice
  let volChange := currentOption.volatility - prevOption.volatility
  let rateChange := currentOption.riskFreeRate - prevOption.riskFreeRate
  { acc with
    delta := acc.delta + prevOption.greeks.delta * spotChange * currentOption.quantity
    theta := acc.theta + prevOption.greeks.theta * (timeElapsed / 365) * currentOption.quantity
    vega := acc.vega + prevOption.greeks.vega * volChange * currentOption.quantity
    rho := acc.rho + prevOption.greeks.rho * rateChange * currentOption.quantity
    gamma := acc.gamma + 0.5 * prevOption.greeks.gamma * spotChange * spotChange * currentOption.quantity }

/-- The `forEach` loop of `PnLAttribution.tsx`: iterate the CURRENT
portfolio's positions with their index, look the previous position up
by the same index, and skip the iteration (`if (!prevOption) return`)
when there is none. -/
def pnlLoop (prevOptions : List OptionMetrics) (timeElapsed : ℚ) :
    List OptionMetrics → ℕ → PnLComponents → PnLComponents
  | [], _, acc => acc
  | c :: rest, idx, acc =>
    match prevOptions[idx]? with
    | none => pnlLoop prevOptions timeElapsed rest (idx + 1) acc
    | some p => pnlLoop prevOptions timeElapsed rest (idx + 1) (pnlAccum timeElapsed acc c p)

/-- The `useMemo` computation of `PnLAttribution.tsx` (for a present
previous portfolio): `total` is set first, the per-position components
are accumulated by `pnlLoop`, and `unexplained` is the residual. -/
def pnlAttribution (portfolio previousPortfolio : Portfolio) (timeElapsed : ℚ) :
    PnLComponents :=
  let base : PnLComponents :=
    ⟨0, 0, 0, 0, 0, 0, portfolio.totalValue - previousPortfolio.totalValue⟩
  let acc := pnlLoop previousPortfolio.options timeElapsed portfolio.options 0 base
  { acc with
    unexplained := acc.total - (acc.delta + acc.gamma + acc.theta + acc.vega + acc.rho) }

/-- Index-free description of the loop: a fold over the positionwise
zip of the two option lists (`List.zip` truncates to the shorter list,
exactly like the index lookup with its skip guard). -/
def pnlZip (timeElapsed : ℚ) (pairs : List (OptionMetrics × OptionMetrics))
    (base : PnLComponents) : PnLComponents :=
  pairs.foldl (fun acc cp => pnlAccum timeElapsed acc cp.1 cp.2) base

theorem pnlLoop_eq_zip (prevOptions : List OptionMetrics) (timeElapsed : ℚ) :
    ∀ (cs : List OptionMetrics) (idx : ℕ) (acc : PnLComponents),
      pnlLoop prevOptions timeElapsed cs idx acc =
        pnlZip timeElapsed (cs.zip (prevOptions.drop idx)) acc := by
  intro cs
  induction cs with
  | nil => intro idx acc; simp [pnlLoop, pnlZip]
  | cons c rest ih =>
    intro idx acc
    rcases h : prevOptions[idx]? with _ | p
    · have hlen : prevOptions.length ≤ idx := by
        by_contra hlt
        push_neg at hlt
        rw [List.getElem?_eq_getElem hlt] at h
        cases h
      have hdrop : prevOptions.drop idx = [] := List.drop_eq_nil_of_le hlen
      have hdrop1 : prevOptions.drop (idx + 1) = [] := List.drop_eq_nil_of_le (by omega)
      rw [pnlLoop, h]
      show pnlLoop prevOptions timeElapsed rest (idx + 1) acc = _
      rw [ih (idx + 1) acc, hdrop, hdrop1]
      simp [List.zip_nil_right]
    · have hlt : idx < prevOptions.length := by
        by_contra hge
        push_neg at hge
        rw [List.getElem?_eq_none hge] at h
        cases h
      have hdrop : prevOptions.drop idx = prevOptions[idx] :: prevOptions.drop (idx + 1) :=
        List.drop_eq_getElem_cons hlt
      have hp : prevOptions[idx] = p := by
        rw [List.getElem?_eq_getElem hlt] at h
        cases h
        rfl
      rw [pnlLoop, h]
      show pnlLoop prevOptions timeElapsed rest (idx + 1) (pnlAccum timeElapsed acc c p) = _
      rw [ih (idx + 1), hdrop, hp]
      simp only [pnlZip, List.zip_cons_cons, List.foldl_cons]

theorem zip_take_length {α β : Type} :
    ∀ (l1 : List α) (l2 : List β), (l1.take l2.length).zip l2 = l1.zip l2 := by
  intro l1
  induction l1 with
  | nil => intro l2; simp
  | cons a t1 ih =>
    intro l2
    cases l2 with
    | nil => simp
    | cons b t2 => simp [ih t2]

/-- C3 (amended).  A length mismatch between the two snapshots is NOT
detected: the computation is total (it always returns a components
record, never an error), and current positions with no previous
counterpart at the same index are silently skipped — the result is
identical to running the attribution on the current options truncated
to the previous portfolio's length. -/
theorem pnlAttribution_truncates (cur prev : Portfolio) (timeElapsed : ℚ) :
    pnlAttribution cur prev timeElapsed =
      pnlAttribution ⟨cur.options.take prev.options.length, cur.totalValue⟩ prev timeElapsed := by
  simp only [pnlAttribution]
  rw [pnlLoop_eq_zip, pnlLoop_eq_zip]
  simp only [List.drop_zero]
  rw [zip_take_length]

/-- C3 (counterexample).  A concrete mismatched pair of snapshots — the
current portfolio has two positions, the previous only one — produces a
normal attribution record in which the unmatched second position simply
contributed nothing, instead of failing fast: the delta component 20
comes from position 1 alone (delta 1 × spot change 10 × quantity 2) and
the second position's spot of 500 with quantity 10 is nowhere visible. -/
theorem pnlAttribution_mismatched_no_error :
    pnlAttribution
      ⟨[⟨110, 1 / 2, 1 / 20, 2, ⟨1, 0, 0, 0, 0⟩⟩,
        ⟨500, 1 / 2, 1 / 20, 10, ⟨1, 1, 1, 1, 1⟩⟩], 50⟩
      ⟨[⟨100, 1 / 2, 1 / 20, 1, ⟨1, 0, 0, 0, 0⟩⟩], 30⟩ 1 =
      ⟨20, 0, 0, 0, 0, 0, 20⟩ := by
  norm_num [pnlAttribution, pnlLoop, pnlAccum]

theorem pnlZip_delta (t : ℚ) :
    ∀ (pairs : List (OptionMetrics × OptionMetrics)) (base : PnLComponents),
      (pnlZip t pairs base).delta = base.delta +
        (pairs.map fun cp => cp.2.greeks.delta * (cp.1.spotPrice - cp.2.spotPrice) * cp.1.quantity).sum := by
  intro pairs
  induction pairs with
  | nil => intro base; simp [pnlZip]
  | cons hd tl ih =>
    intro base
    simp only [pnlZip, List.foldl_cons, List.map_cons, List.sum_cons] at ih ⊢
    rw [ih]
    simp only [pnlAccum]
    ring

theorem pnlZip_gamma (t : ℚ) :
    ∀ (pairs : List (OptionMetrics × OptionMetrics)) (base : PnLComponents),
      (pnlZip t pairs base).gamma = base.gamma +
        (pairs.map fun cp => 0.5 * cp.2.greeks.gamma * (cp.1.spotPrice - cp.2.spotPrice) *
          (cp.1.spotPrice - cp.2.spotPrice) * cp.1.quantity).sum := by
  intro pairs
  induction pairs with
  | nil => intro base; simp [pnlZip]
  | cons hd tl ih =>
    intro base
    simp only [pnlZip, List.foldl_cons, List.map_cons, List.sum_cons] at ih ⊢
    rw [ih]
    simp only [pnlAccum]
    ring

theorem pnlZip_theta (t : ℚ) :
    ∀ (pairs : List (OptionMetrics × OptionMetrics)) (base : PnLComponents),
      (pnlZip t pairs base).theta = base.theta +
        (pairs.map fun cp => cp.2.greeks.theta * (t / 365) * cp.1.quantity).sum := by
  intro pairs
  induction pairs with
  | nil => intro base; simp [pnlZip]
  | cons hd tl ih =>
    intro base
    simp only [pnlZip, List.foldl_cons, List.map_cons, List.sum_cons] at ih ⊢
    rw [ih]
    simp only [pnlAccum]
    ring

theorem pnlZip_vega (t : ℚ) :
    ∀ (pairs : List (OptionMetrics × OptionMetrics)) (base : PnLComponents),
      (pnlZip t pairs base).vega = base.vega +
        (pairs.map fun cp => cp.2.greeks.vega * (cp.1.volatility - cp.2.volatility) * cp.1.quantity).sum := by
  intro pairs
  induction pairs with
  | nil => intro base; simp [pnlZip]
  | cons hd tl ih =>
    intro base
    simp only [pnlZip, List.foldl_cons, List.map_cons, List.sum_cons] at ih ⊢
    rw [ih]
    simp only [pnlAccum]
    ring

theorem pnlZip_rho (t : ℚ) :
    ∀ (pairs : List (OptionMetrics × OptionMetrics)) (base : PnLComponents),
      (pnlZip t pairs base).rho = base.rho +
        (pairs.map fun cp => cp.2.greeks.rho * (cp.1.riskFreeRate - cp.2.riskFreeRate) * cp.1.quantity).sum := by
  intro pairs
  induction pairs with
  | nil => intro base; simp [pnlZip]
  | cons hd tl ih =>
    intro base
    simp only [pnlZip, List.foldl_cons, List.map_cons, List.sum_cons] at ih ⊢
    rw [ih]
    simp only [pnlAccum]
    ring

/-- C10.  In the P&L attribution every component of every position pair
takes its sensitivity (the Greek) from the PREVIOUS snapshot
(`cp.2.greeks`) and its weight from the CURRENT snapshot's quantity
(`cp.1.quantity`) — in particular, when the two snapshots disagree on a
position's quantity, the current one is used for all five components. -/
theorem pnlAttribution_uses_current_quantity (cur prev : Portfolio) (t : ℚ) :
    (pnlAttribution cur prev t).delta = ((cur.options.zip prev.options).map fun cp =>
        cp.2.greeks.delta * (cp.1.spotPrice - cp.2.spotPrice) * cp.1.quantity).sum ∧
    (pnlAttribution cur prev t).gamma = ((cur.options.zip prev.options).map fun cp =>
        0.5 * cp.2.greeks.gamma * (cp.1.spotPrice - cp.2.spotPrice) *
          (cp.1.spotPrice - cp.2.spotPrice) * cp.1.quantity).sum ∧
    (pnlAttribution cur prev t).theta = ((cur.options.zip prev.options).map fun cp =>
        cp.2.greeks.theta * (t / 365) * cp.1.quantity).sum ∧
    (pnlAttribution cur prev t).vega = ((cur.options.zip prev.options).map fun cp =>
        cp.2.greeks.vega * (cp.1.volatility - cp.2.volatility) * cp.1.quantity).sum ∧
    (pnlAttribution cur prev t).rho = ((cur.options.zip prev.options).map fun cp =>
        cp.2.greeks.rho * (cp.1.riskFreeRate - cp.2.riskFreeRate) * cp.1.quantity).sum := by
  simp only [pnlAttribution, pnlLoop_eq_zip, List.drop_zero]
  refine ⟨?_, ?_, ?_, ?_, ?_⟩
  · simp [pnlZip_delta]
  · simp [pnlZip_gamma]
  · simp [pnlZip_theta]
  · simp [pnlZip_vega]
  · simp [pnlZip_rho]

end PnL

namespace VolSurface

/-- The `VolSurfaceData` record of the volatility-surface component:
sorted unique strikes, sorted unique maturities, and the
`volatilities[maturityIndex][strikeIndex]` table.  JavaScript numbers
are modelled as exact rationals (the interpolator uses only field
arithmetic and comparisons). -/
structure VolSurfaceData where
  strikes : List ℚ
  maturities : List ℚ
  volatilities : List (List ℚ)
deriving DecidableEq

/-- The index-search `while` loop of `interpolateVol`
(`while (i1 < strikes.length - 1 && strikes[i1 + 1] <= strike) i1++`):
starting from position 0, advance as long as the next element is still
at most the query value. -/
def bracketLow : List ℚ → ℚ → ℕ
  | [], _ => 0
  | [_], _ => 0
  | _ :: b :: rest, q => if b ≤ q then bracketLow (b :: rest) q + 1 else 0

/-- JavaScript's `(d || 1)` guard on the interpolation denominators:
a zero denominator is replaced by 1. -/
def dOr1 (d : ℚ) : ℚ := if d = 0 then 1 else d

/-- `interpolateVol` from the volatility-surface component: bracket the
query point, compute fractional weights with a `|| 1` guard on the
denominators, and return the bilinear combination of the four corner
volatilities.  Out-of-range list accesses (impossible for the built
grids) are modelled with `getD` defaulting to 0 or `[]`. -/
def interpolateVol (strike maturity : ℚ) (data : VolSurfaceData) : ℚ :=
  let strikes := data.strikes
  let maturities := data.maturities
  let volatilities := data.volatilities
  let i1 := bracketLow strikes strike
  let i2 := min (i1 + 1) (strikes.length - 1)
  let j1 := bracketLow maturities maturity
  let j2 := min (j1 + 1) (maturities.length - 1)
  let x := (strike - strikes.getD i1 0) / dOr1 (strikes.getD i2 0 - strikes.getD i1 0)
  let y := (maturity - maturities.getD j1 0) / dOr1 (maturities.getD j2 0 - maturities.getD j1 0)
  let v11 := (volatilities.getD j1 []).getD i1 0
  let v12 := (volatilities.getD j1 []).getD i2 0
  let v21 := (volatilities.getD j2 []).getD i1 0
  let v22 := (volatilities.getD j2 []).getD i2 0
  v11 * (1 - x) * (1 - y) + v12 * x * (1 - y) + v21 * (1 - x) * y + v22 * x * y

theorem sorted_head_le_get (b : ℚ) (rest : List ℚ)
    (hs : (b :: rest).Sorted (· < ·)) (k : ℕ) (hk : k < (b :: rest).length) :
    b ≤ (b :: rest).get ⟨k, hk⟩ := by
  cases k with
  | zero => simp
  | succ m =>
    have hmem : (b :: rest).get ⟨m + 1, hk⟩ ∈ rest := by
      simpa using List.get_mem rest ⟨m, by simpa using hk⟩
    exact ((List.sorted_cons.mp hs).1 _ hmem).le

/-- On a strictly sorted list the `while` loop stops exactly at the
index of the queried grid value. -/
theorem bracketLow_get :
    ∀ (xs : List ℚ), xs.Sorted (· < ·) → ∀ (i : ℕ) (hi : i < xs.length),
      bracketLow xs (xs.get ⟨i, hi⟩) = i := by
  intro xs
  induction xs with
  | nil => intro _ i hi; simp at hi
  | cons a tail ih =>
    intro hs i hi
    cases tail with
    | nil =>
      have : i = 0 := by simpa using Nat.lt_one_iff.mp (by simpa using hi)
      subst this
      simp [bracketLow]
    | cons b rest =>
      cases i with
      | zero =>
        have hab : a < b := (List.sorted_cons.mp hs).1 b (by simp)
        simp [bracketLow, not_le.mpr hab]
      | succ k =>
        have hk : k < (b :: rest).length := by simpa using hi
        have hble : b ≤ (b :: rest).get ⟨k, hk⟩ :=
          sorted_head_le_get b rest (List.sorted_cons.mp hs).2 k hk
        have hget : (a :: b :: rest).get ⟨k + 1, hi⟩ = (b :: rest).get ⟨k, hk⟩ := rfl
        rw [hget, bracketLow, if_pos hble, ih (List.sorted_cons.mp hs).2 k hk]

/-- C6.  Querying the interpolator at a grid point
`(strikes[i], maturities[j])` of a built surface (both axes strictly
sorted, as the builder's dedup-and-sort guarantees) returns the stored
table entry `volatilities[j][i]` exactly: both weight numerators vanish,
so the bilinear formula collapses to the `v11` corner. -/
theorem interpolateVol_grid_exact (strikes maturities : List ℚ) (vols : List (List ℚ))
    (hs : strikes.Sorted (· < ·)) (hm : maturities.Sorted (· < ·))
    (i j : ℕ) (hi : i < strikes.length) (hj : j < maturities.length) :
    interpolateVol (strikes.get ⟨i, hi⟩) (maturities.get ⟨j, hj⟩) ⟨strikes, maturities, vols⟩ =
      (vols.getD j []).getD i 0 := by
  simp only [interpolateVol]
  rw [bracketLow_get strikes hs i hi, bracketLow_get maturities hm j hj]
  rw [List.getD_eq_get strikes 0 hi, List.getD_eq_get maturities 0 hj]
  rw [sub_self, sub_self, zero_div, zero_div]
  ring

/-- Witness for C6: a concrete 2-by-2 grid queried at grid point
(strike index 0, maturity index 1). -/
theorem interpolateVol_grid_exact_witness :
    interpolateVol (([1, 2] : List ℚ).get ⟨0, by norm_num⟩)
        (([1, 2] : List ℚ).get ⟨1, by norm_num⟩)
        ⟨[1, 2], [1, 2], [[3, 4], [5, 6]]⟩ =
      (([[3, 4], [5, 6]] : List (List ℚ)).getD 1 []).getD 0 0 :=
  interpolateVol_grid_exact [1, 2] [1, 2] [[3, 4], [5, 6]]
    (by norm_num) (by norm_num) 0 1 (by norm_num) (by norm_num)

theorem bracketLow_all_le :
    ∀ (xs : List ℚ) (q : ℚ), (∀ a ∈ xs, a ≤ q) → bracketLow xs q = xs.length - 1 := by
  intro xs
  induction xs with
  | nil => intro q _; simp [bracketLow]
  | cons a tail ih =>
    intro q hall
    cases tail with
    | nil => simp [bracketLow]
    | cons b rest =>
      have hb : b ≤ q := hall b (by simp)
      rw [bracketLow, if_pos hb, ih q (fun x hx => hall x (by simp [hx]))]
      simp

/-- C7 (amended, the true part).  For a query at or above the grid
maximum in BOTH coordinates, both bracketing index pairs coincide at the
last index, all four corner volatilities are the same table entry, and
the bilinear combination returns that last corner exactly — the weight
itself is `strike - strikes[i1]` (the `|| 1` guard replaces the zero
denominator by 1, it does not zero the weight), but the coincident
corners make the result independent of it. -/
theorem interpolateVol_above_grid_clamps (strikes maturities : List ℚ)
    (vols : List (List ℚ)) (strike maturity : ℚ)
    (hstrike : ∀ s ∈ strikes, s ≤ strike) (hmat : ∀ m ∈ maturities, m ≤ maturity) :
    interpolateVol strike maturity ⟨strikes, maturities, vols⟩ =
      (vols.getD (maturities.length - 1) []).getD (strikes.length - 1) 0 := by
  simp only [interpolateVol]
  rw [bracketLow_all_le strikes strike hstrike, bracketLow_all_le maturities maturity hmat]
  rw [min_eq_right (by omega : strikes.length - 1 ≤ strikes.length - 1 + 1)]
  rw [min_eq_right (by omega : maturities.length - 1 ≤ maturities.length - 1 + 1)]
  ring

/-- Witness for C7's amended theorem: querying the concrete grid above
both axis maxima returns the last stored corner. -/
theorem interpolateVol_above_grid_clamps_witness :
    interpolateVol 5 7 ⟨[1, 2], [1, 2], [[3, 4], [5, 6]]⟩ =
      (([[3, 4], [5, 6]] : List (List ℚ)).getD 1 []).getD 1 0 :=
  interpolateVol_above_grid_clamps [1, 2] [1, 2] [[3, 4], [5, 6]] 5 7
    (by norm_num) (by norm_num)

/-- C7 (counterexample).  A query BELOW the grid minimum does not clamp:
on the grid with strikes `[1, 2]`, maturities `[1, 2]` and all stored
volatilities in `[0, 1]`, the query at strike 0 (maturity 1) gets weight
`x = (0 - 1)/(2 - 1) = -1` and returns `-1`, linear extrapolation far
outside the boundary cell's corner range `[0, 1]` — refuting the claim
that the returned value always lies within that range. -/
theorem interpolateVol_below_grid_extrapolates :
    interpolateVol 0 1 ⟨[1, 2], [1, 2], [[0, 1], [0, 1]]⟩ = -1 ∧
    ∀ row ∈ ([[0, 1], [0, 1]] : List (List ℚ)), ∀ v ∈ row, 0 ≤ v := by
  constructor
  · norm_num [interpolateVol, bracketLow, dOr1]
  · intro row hrow v hv
    simp only [List.mem_cons, List.not_mem_nil, or_false] at hrow
    rcases hrow with rfl | rfl <;>
      · simp only [List.mem_cons, List.not_mem_nil, or_false] at hv
        rcases hv with rfl | rfl <;> norm_num

end VolSurface
